import Mathlib

/-!
Verification of the event-stream reconciliation engine (`web/src/lib/chat.ts`:
`normalizeText`, `extractText`, `buildChatMessages`) against its specification.

The embedding models JavaScript dynamic values with the inductive `JVal`.
Property access on `null`/`undefined` throws in JavaScript, and
`normalizeText` applied to a truthy non-string throws (`s.replace` is not a
function); these are the only two exception sources in the module, so the
embedded functions run in `Except Unit` and `.error ()` models a thrown
`TypeError`.  All other JavaScript semantics used by the module (truthiness,
`===`, `typeof` tests, template-literal stringification, `Array.prototype.join`
coercion, `Map`/`Set` behaviour) are modelled by total functions below.

Object identity: `===`, `Set.has` and `Map.get` compare objects and arrays by
reference in JavaScript.  `jsEq` returns `false` for object/array operands,
which matches reference inequality of separately constructed literals; message
identities and dedup keys in this module are strings in every producer shape,
where `jsEq` coincides with `===` exactly.

Numbers are modelled as `Int`: the module only compares, subtracts and
stringifies `seq` / `timestamp_ms` values, which are integers for every
producer, so no floating-point behaviour is observable.
-/

mutual
inductive JVal where
  | vundef
  | vnull
  | vbool (b : Bool)
  | vnum (n : Int)
  | vstr (s : String)
  | varr (elems : JArr)
  | vobj (fields : JObj)
inductive JArr where
  | anil
  | acons (hd : JVal) (tl : JArr)
inductive JObj where
  | onil
  | ocons (key : String) (val : JVal) (tl : JObj)
end

/-- Build a `JArr` from a list literal. -/
def listToJArr : List JVal → JArr
  | [] => .anil
  | x :: xs => .acons x (listToJArr xs)

/-- Build a `JObj` from an association-list literal. -/
def listToJObj : List (String × JVal) → JObj
  | [] => .onil
  | (k, v) :: xs => .ocons k v (listToJObj xs)

/-- Object literal notation helper. -/
def jobj (fs : List (String × JVal)) : JVal := .vobj (listToJObj fs)

/-- Array literal notation helper. -/
def jarr (xs : List JVal) : JVal := .varr (listToJArr xs)

def JArr.toList : JArr → List JVal
  | .anil => []
  | .acons x xs => x :: xs.toList

/-- First binding of a key in an object (JavaScript object keys are unique). -/
def JObj.find : JObj → String → Option JVal
  | .onil, _ => none
  | .ocons k v tl, key => if k = key then some v else tl.find key

/-- `v` is `null` or `undefined` (property access on it throws). -/
def nullish : JVal → Bool
  | .vundef => true
  | .vnull => true
  | _ => false

/-- JavaScript truthiness (`NaN` is not representable in the `Int` model). -/
def truthy : JVal → Bool
  | .vundef => false
  | .vnull => false
  | .vbool b => b
  | .vnum n => n != 0
  | .vstr s => s ≠ ""
  | .varr _ => true
  | .vobj _ => true

/-- `typeof v === 'string'`. -/
def isStr : JVal → Bool
  | .vstr _ => true
  | _ => false

/-- `typeof v === 'number'`. -/
def isNum : JVal → Bool
  | .vnum _ => true
  | _ => false

/-- `Array.isArray(v)`. -/
def isArr : JVal → Bool
  | .varr _ => true
  | _ => false

/-- `typeof v === 'object'` (true for objects, arrays and `null`). -/
def isObjTypeof : JVal → Bool
  | .vobj _ => true
  | .varr _ => true
  | .vnull => true
  | _ => false

/-- The string carried by a string value, `""` otherwise. -/
def asStr : JVal → String
  | .vstr s => s
  | _ => ""

/-- The elements of an array value, `[]` otherwise. -/
def arrOf : JVal → List JVal
  | .varr a => a.toList
  | _ => []

/-- `typeof v === 'number' ? v : d`. -/
def numOr (v : JVal) (d : Int) : Int :=
  match v with
  | .vnum n => n
  | _ => d

/-- Strict equality `===` (objects and arrays compare by reference; separately
constructed literals are reference-unequal, modelled as `false`). -/
def jsEq : JVal → JVal → Bool
  | .vundef, .vundef => true
  | .vnull, .vnull => true
  | .vbool a, .vbool b => a == b
  | .vnum a, .vnum b => a == b
  | .vstr a, .vstr b => a == b
  | _, _ => false

/-- Property access `v[k]`; total surrogate used only where the source
guarantees the base is not nullish (guards, optional chaining, or a prior
access on the same base already in scope). -/
def dot (v : JVal) (k : String) : JVal :=
  match v with
  | .vobj fs => (fs.find k).getD .vundef
  | _ => (.vundef)

/-- Property access `v[k]` as executed by JavaScript: throws on a nullish
base. -/
def jget (v : JVal) (k : String) : Except Unit JVal :=
  if nullish v then .error () else .ok (dot v k)

mutual
/-- JavaScript `ToString` for the value shapes in scope (plain objects render
as `[object Object]`; arrays render as `join(',')`). -/
def jsToString : JVal → String
  | .vundef => "undefined"
  | .vnull => "null"
  | .vbool b => if b then "true" else "false"
  | .vnum n => toString n
  | .vstr s => s
  | .vobj _ => "[object Object]"
  | .varr xs => jarrToString xs
/-- `Array.prototype.join(',')`: nullish elements render as the empty
string. -/
def jarrToString : JArr → String
  | .anil => ""
  | .acons x .anil => if nullish x then "" else jsToString x
  | .acons x (.acons y tl) =>
      (if nullish x then "" else jsToString x) ++ "," ++ jarrToString (.acons y tl)
end

/-- `Array.prototype.join(sep)` over a list of values. -/
def jsJoin (xs : List JVal) (sep : String) : String :=
  String.intercalate sep (xs.map (fun v => if nullish v then "" else jsToString v))

/-- JavaScript `\s` character class. -/
def jsWs (c : Char) : Bool :=
  c = ' ' || c = '\t' || c = '\n' || c = '\r' || c = '\x0b' || c = '\x0c' ||
  c = '\u00A0' || c = '\u1680' || ('\u2000' ≤ c && c ≤ '\u200A') ||
  c = '\u2028' || c = '\u2029' || c = '\u202F' || c = '\u205F' ||
  c = '\u3000' || c = '\uFEFF'

/-- `s.replace(/\r\n/g, '\n')` at character level. -/
def replaceCRLF : List Char → List Char
  | [] => []
  | '\r' :: '\n' :: rest => '\n' :: replaceCRLF rest
  | c :: rest => c :: replaceCRLF rest

/-- `s.split('\n')` at character level (always returns at least one piece). -/
def splitNl : List Char → List (List Char)
  | [] => [[]]
  | c :: rest =>
      match splitNl rest with
      | [] => [[]]
      | h :: t => if c = '\n' then [] :: h :: t else (c :: h) :: t

/-- `s.trim()` over a character list (JavaScript trims the `\s` class). -/
def jsTrimList (cs : List Char) : List Char :=
  ((cs.dropWhile jsWs).reverse.dropWhile jsWs).reverse

/-- `s.trim()` for strings. -/
def jsTrim (s : String) : String := String.mk (jsTrimList s.toList)

/-- `line.replace(/\s+/g, ' ')`: every whitespace run becomes one space.  The
boolean records whether the previous character was part of a run. -/
def collapseWsGo : Bool → List Char → List Char
  | _, [] => []
  | prevWs, c :: rest =>
      if jsWs c then
        if prevWs then collapseWsGo true rest else ' ' :: collapseWsGo true rest
      else c :: collapseWsGo false rest

/-- One line of `normalizeText`: collapse whitespace runs, then trim. -/
def cleanLine (cs : List Char) : List Char := jsTrimList (collapseWsGo false cs)

/-- `joined.replace(/\n{3,}/g, '\n\n')`: keep at most two consecutive
newlines.  The counter tracks the length of the current newline run. -/
def squeezeNlGo : Nat → List Char → List Char
  | _, [] => []
  | k, c :: rest =>
      if c = '\n' then
        if k ≥ 2 then squeezeNlGo (k + 1) rest
        else '\n' :: squeezeNlGo (k + 1) rest
      else c :: squeezeNlGo 0 rest

/-- `normalizeText` from `web/src/lib/chat.ts` (string argument): unify line
endings, collapse whitespace runs within each line and trim it, collapse three
or more consecutive newlines to two, trim the result.  `if (!s) return ''`
is the `s = ""` case for a string argument. -/
def normalizeText (s : String) : String :=
  if s = "" then ""
  else
    let unified := replaceCRLF s.toList
    let cleaned := (splitNl unified).map cleanLine
    let joined := List.intercalate ['\n'] cleaned
    String.mk (jsTrimList (squeezeNlGo 0 joined))

/-- `normalizeText` applied to an arbitrary value, as at the one call site
that does not guard the argument's type: a falsy argument returns `""`
(`if (!s) return ''`), a truthy non-string throws (`s.replace` is not a
function). -/
def normalizeTextJ (v : JVal) : Except Unit String :=
  if !truthy v then .ok ""
  else
    match v with
    | .vstr s => .ok (normalizeText s)
    | _ => .error ()

/-- `extractText` from `web/src/lib/chat.ts`.  Every property access in the
source is dominated by a guard on its base (`if (!item) return ''`, the
`c &&` / `it &&` filters, `item.response &&`), so the function never throws;
accesses on `item` itself go through `jget` to keep the throwing semantics
visible, accesses on guarded sub-values use the total `dot`. -/
def extractText (item : JVal) : Except Unit String := do
  if !truthy item then return ""
  let content ← jget item "content"
  if isStr content then return normalizeText (asStr content)
  if isArr content then
    let textParts := (((arrOf content).filter (fun c =>
        truthy c && (jsEq (dot c "type") (.vstr "output_text") ||
          jsEq (dot c "type") (.vstr "input_text") ||
          jsEq (dot c "type") (.vstr "text")))).map
        (fun c => if isStr (dot c "text") then asStr (dot c "text") else "")).filter
        (fun s => s ≠ "")
    if textParts.length ≠ 0 then
      return normalizeText (String.intercalate "\n" textParts)
  let txt ← jget item "text"
  if isStr txt then return normalizeText (asStr txt)
  let outp ← jget item "output"
  if isStr outp then return normalizeText (asStr outp)
  let outputText ← jget item "output_text"
  if isArr outputText then return normalizeText (jsJoin (arrOf outputText) "\n")
  let inputText ← jget item "input_text"
  if isArr inputText then return normalizeText (jsJoin (arrOf inputText) "\n")
  let args ← jget item "arguments"
  if truthy args && isStr args then return normalizeText (asStr args)
  let resp ← jget item "response"
  if truthy resp && isObjTypeof resp then
    if isArr (dot resp "output_text") then
      return normalizeText (jsJoin (arrOf (dot resp "output_text")) "\n")
    if isStr (dot resp "text") then return normalizeText (asStr (dot resp "text"))
  let items ← jget item "items"
  if isArr items then
    let parts := ((arrOf items).filter (fun it =>
        truthy it && jsEq (dot it "type") (.vstr "output_text") &&
          isStr (dot it "text"))).map (fun it => asStr (dot it "text"))
    if parts.length ≠ 0 then
      return normalizeText (String.intercalate "\n" parts)
  return ""

/-- The `source` tag of a chat message (`ChatSource` in the source). -/
inductive ChatSource where
  | sdk
  | llm
  | realtime
deriving DecidableEq

/-- The `kind` field of a chat message. -/
inductive MsgKind where
  | user
  | assistant
  | tool
  | system
deriving DecidableEq

/-- The engine's output unit (`ChatMessage` in the source).  `id`, `role` and
`text` are JavaScript values: the events path always produces strings for
them, but the transcript fallback copies `it.id` verbatim and the realtime
path copies `l.role` / `l.content` verbatim.  `buildChatMessages` never sets
`toolName`; the field is kept to mirror the interface. -/
structure ChatMessage where
  id : JVal
  role : JVal
  text : JVal
  raw : JVal
  kind : MsgKind
  toolName : Option JVal
  source : ChatSource

/-- `Number.MAX_SAFE_INTEGER`, the comparator's sentinel for a missing key. -/
def maxSafeInteger : Int := 9007199254740991

/-- One entry of the `withIndex` array: the event, its original batch index,
and the two comparator keys (`seq` and `timestamp_ms`, with the sentinel for
non-numbers). -/
structure SortEnt where
  e : JVal
  i : Nat
  ks : Int
  kt : Int

/-- The three-key comparator of `buildChatMessages` as a `Bool` order:
`entLe a b` iff the source comparator returns `≤ 0` on `(a, b)`. -/
def entLe (a b : SortEnt) : Bool :=
  if a.ks ≠ b.ks then decide (a.ks < b.ks)
  else if a.kt ≠ b.kt then decide (a.kt < b.kt)
  else decide (a.i ≤ b.i)

/-- Extract the comparator keys for every indexed event.  The comparator reads
`a.e.seq` / `a.e.timestamp_ms`, which throws for a nullish event; any sorting
algorithm reads the keys of every element of a batch, so the extraction is
hoisted in front of the sort. -/
def keyEnts : List (Nat × JVal) → Except Unit (List SortEnt)
  | [] => .ok []
  | (i, e) :: rest => do
      let sv ← jget e "seq"
      let tv ← jget e "timestamp_ms"
      let tail ← keyEnts rest
      .ok (⟨e, i, numOr sv maxSafeInteger, numOr tv maxSafeInteger⟩ :: tail)

/-- The Stable Orderer of `buildChatMessages`: attach original indices, sort
by the three-key comparator, project the events back out.  The comparator is a
total order that is strict on distinct indices, so every correct sort
(JavaScript's included) produces this unique result. -/
def sortEvents (events : List JVal) : Except Unit (List JVal) := do
  let keyed ← keyEnts events.enum
  .ok ((List.insertionSort (fun a b => entLe a b) keyed).map SortEnt.e)

/-- `realMessageIds`: identities of non-optimistic `message` events. -/
def realMessageIds (eventsSorted : List JVal) : List JVal :=
  (eventsSorted.filter (fun e =>
      truthy e && jsEq (dot e "type") (.vstr "message") &&
      truthy (dot e "message_id") &&
      (!truthy (dot e "data") || !truthy (dot (dot e "data") "optimistic")))).map
    (fun e => dot e "message_id")

/-- `realUserTexts`: normalized texts of non-optimistic user `message` events
whose `text` is a non-blank string. -/
def realUserTexts (eventsSorted : List JVal) : List String :=
  (eventsSorted.filter (fun e =>
      truthy e && jsEq (dot e "type") (.vstr "message") &&
      jsEq (dot e "role") (.vstr "user") &&
      (!truthy (dot e "data") || !truthy (dot (dot e "data") "optimistic")) &&
      isStr (dot e "text") && jsTrim (asStr (dot e "text")) ≠ "")).map
    (fun e => normalizeText (asStr (dot e "text")))

/-- Association list lookup with an explicit key equality (JavaScript `Map.get`,
whose `SameValueZero` coincides with `jsEq` on the primitive keys in scope). -/
def alistGet {κ β : Type} (eq : κ → κ → Bool) (m : List (κ × β)) (k : κ) : Option β :=
  (m.find? (fun p => eq p.1 k)).map (fun p => p.2)

/-- JavaScript `Map.set`: update in place (keeping insertion order) or append. -/
def alistSet {κ β : Type} (eq : κ → κ → Bool) (m : List (κ × β)) (k : κ) (v : β) :
    List (κ × β) :=
  if m.any (fun p => eq p.1 k) then
    m.map (fun p => if eq p.1 k then (p.1, v) else p)
  else m ++ [(k, v)]

/-- The mutable state of the main event loop: the token accumulator
(`partials` Map), the two user-dedup records, and the output list built so
far. -/
structure LoopSt where
  tokAcc : List (JVal × String)
  seenUserIds : List String
  seenUserTextRecent : List (String × Int)
  msgs : List ChatMessage

def initSt : LoopSt := ⟨[], [], [], []⟩

/-- `partials.get(ev.message_id) || ''`: the running accumulation for the
event's identity (empty when the identity is falsy or unknown). -/
def progressiveOf (acc : List (JVal × String)) (ev : JVal) : String :=
  if truthy (dot ev "message_id") then
    (alistGet jsEq acc (dot ev "message_id")).getD ""
  else ""

/-- `ev.final ? ev.text || progressive : progressive || ev.text || ''`. -/
def preferredOf (acc : List (JVal × String)) (ev : JVal) : JVal :=
  if truthy (dot ev "final") then
    (if truthy (dot ev "text") then dot ev "text" else .vstr (progressiveOf acc ev))
  else
    (if progressiveOf acc ev ≠ "" then .vstr (progressiveOf acc ev)
     else if truthy (dot ev "text") then dot ev "text" else .vstr "")

/-- `normalizeText(preferred || extractText(ev))`: the resolved display text of
a `message` event.  The `normalizeTextJ` call is the module's one unguarded
`normalizeText` call site. -/
def resolveText (acc : List (JVal × String)) (ev : JVal) : Except Unit String := do
  let fallback ← extractText ev
  normalizeTextJ (if truthy (preferredOf acc ev) then preferredOf acc ev
    else .vstr fallback)

/-- `const role = ev.role || 'assistant'`. -/
def roleOf (ev : JVal) : JVal :=
  if truthy (dot ev "role") then dot ev "role" else .vstr "assistant"

/-- The role-to-kind mapping of the events path. -/
def kindOf (role : JVal) : MsgKind :=
  if jsEq role (.vstr "user") then .user
  else if jsEq role (.vstr "assistant") then .assistant
  else .system

/-- The message pushed for a surviving `message` event. -/
def eventMsg (source : ChatSource) (ev : JVal) (text : String) : ChatMessage :=
  { id := .vstr ("e:" ++ jsToString (dot ev "seq")), role := roleOf ev,
    text := .vstr text, raw := ev, kind := kindOf (roleOf ev), toolName := none,
    source := source }

/-- `Handoff to ${ev.agent_id}` plus the optional ` – ${ev.reason}`. -/
def handoffText (ev : JVal) : String :=
  "Handoff to " ++ jsToString (dot ev "agent_id") ++
    (if truthy (dot ev "reason") then " – " ++ jsToString (dot ev "reason") else "")

/-- The system message pushed for a handoff event. -/
def handoffMsg (source : ChatSource) (ev : JVal) : ChatMessage :=
  { id := .vstr ("handoff:" ++ jsToString (dot ev "seq")), role := .vstr "system",
    text := .vstr (handoffText ev), raw := ev, kind := .system, toolName := none,
    source := source }

/-- The token branch's accumulator update:
`partials.set(ev.message_id, (partials.get(ev.message_id) || '') + (ev.text || ''))`. -/
def tokAppend (acc : List (JVal × String)) (ev : JVal) : List (JVal × String) :=
  alistSet jsEq acc (dot ev "message_id")
    ((alistGet jsEq acc (dot ev "message_id")).getD "" ++
      (if truthy (dot ev "text") then jsToString (dot ev "text") else ""))

/-- `typeof ev.message_id === 'string' ? ev.message_id : ''`. -/
def userMidS (ev : JVal) : String :=
  if isStr (dot ev "message_id") then asStr (dot ev "message_id") else ""

/-- `typeof ev.timestamp_ms === 'number' ? ev.timestamp_ms : 0`. -/
def userTs (ev : JVal) : Int := numOr (dot ev "timestamp_ms") 0

/-- `tnorm && lastTs && Math.abs(ts - lastTs) < 7500` (a stored timestamp is
falsy only when it is `0`, which the write guard rules out). -/
def inWindowB (st : LoopSt) (ev : JVal) (text : String) : Bool :=
  text ≠ "" &&
    (match alistGet (fun a b => a == b) st.seenUserTextRecent text with
     | some lt => lt ≠ 0 && decide ((userTs ev - lt).natAbs < 7500)
     | none => false)

/-- `if (mid) seenUserIds.add(mid)`. -/
def seenAfter (st : LoopSt) (ev : JVal) : List String :=
  if userMidS ev ≠ "" then st.seenUserIds ++ [userMidS ev] else st.seenUserIds

/-- `if (tnorm && ts) seenUserTextRecent.set(tnorm, ts)`. -/
def recentAfter (st : LoopSt) (ev : JVal) (text : String) : List (String × Int) :=
  if text ≠ "" && userTs ev ≠ 0 then
    alistSet (fun a b => a == b) st.seenUserTextRecent text (userTs ev)
  else st.seenUserTextRecent

/-- The user-dedup tail of the `message` branch (lines 230-253 of the
source): skip on a repeated `message_id`; skip an optimistic copy whose
normalized text was accepted within the 7.5 s window; otherwise record the
identity and text, then push unless the resolved text is empty. -/
def userStep (source : ChatSource) (st : LoopSt) (ev : JVal) (isOpt : Bool)
    (text : String) : LoopSt :=
  if userMidS ev ≠ "" && st.seenUserIds.contains (userMidS ev) then st
  else if inWindowB st ev text && isOpt then st
  else if text = "" then
    { st with seenUserIds := seenAfter st ev,
              seenUserTextRecent := recentAfter st ev text }
  else
    { st with
      seenUserIds := seenAfter st ev
      seenUserTextRecent := recentAfter st ev text
      msgs := st.msgs ++ [eventMsg source ev text] }

/-- The non-user tail of the `message` branch: push unless the resolved text
is empty. -/
def nonUserStep (source : ChatSource) (st : LoopSt) (ev : JVal) (text : String) :
    LoopSt :=
  if text = "" then st
  else { st with msgs := st.msgs ++ [eventMsg source ev text] }

/-- `ev?.data?.optimistic` as a boolean. -/
def msgIsOpt (ev : JVal) : Bool := truthy (dot (dot ev "data") "optimistic")

/-- `typeof ev.text === 'string' ? normalizeText(ev.text) : ''`. -/
def msgEvText (ev : JVal) : String :=
  if isStr (dot ev "text") then normalizeText (asStr (dot ev "text")) else ""

/-- The `message` branch: the two optimistic-placeholder skips (identity in
`realMessageIds`, normalized text in `realUserTexts`), text resolution, then
the user/non-user tails. -/
def messageStep (source : ChatSource) (rmids : List JVal) (ruts : List String)
    (st : LoopSt) (ev : JVal) : Except Unit LoopSt :=
  if msgIsOpt ev && truthy (dot ev "message_id") &&
      rmids.any (fun x => jsEq x (dot ev "message_id")) then .ok st
  else if msgIsOpt ev && jsEq (dot ev "role") (.vstr "user") &&
      msgEvText ev ≠ "" && ruts.contains (msgEvText ev) then .ok st
  else do
    let text ← resolveText st.tokAcc ev
    if kindOf (roleOf ev) = MsgKind.user then
      .ok (userStep source st ev (msgIsOpt ev) text)
    else
      .ok (nonUserStep source st ev text)

/-- The body of `for (const ev of eventsSorted)` in `buildChatMessages`.
Returning `st` unchanged models `continue`.  After the first (throwing)
access `ev.type` succeeds, `ev` is known non-nullish, so the remaining
accesses on `ev` use the total `dot`. -/
def stepEv (source : ChatSource) (rmids : List JVal) (ruts : List String)
    (st : LoopSt) (ev : JVal) : Except Unit LoopSt := do
  let ty ← jget ev "type"
  if jsEq ty (.vstr "token") && truthy (dot ev "message_id") then
    .ok { st with tokAcc := tokAppend st.tokAcc ev }
  else if jsEq ty (.vstr "handoff") then
    .ok { st with msgs := st.msgs ++ [handoffMsg source ev] }
  else if jsEq ty (.vstr "message") then
    messageStep source rmids ruts st ev
  else
    .ok st

/-- The main event loop. -/
def runEvents (source : ChatSource) (rmids : List JVal) (ruts : List String) :
    LoopSt → List JVal → Except Unit LoopSt
  | st, [] => .ok st
  | st, ev :: rest => do
      let st2 ← stepEv source rmids ruts st ev
      runEvents source rmids ruts st2 rest

/-- `eventsSorted.some((e) => e.type === 'message' && e.message_id === mid &&
e.final === true)`.  Reached only after the main loop succeeded, so every
event is non-nullish and the total `dot` agrees with the access. -/
def hasFinalFor (eventsSorted : List JVal) (mid : JVal) : Bool :=
  eventsSorted.any (fun e =>
    jsEq (dot e "type") (.vstr "message") && jsEq (dot e "message_id") mid &&
    jsEq (dot e "final") (.vbool true))

/-- The post-loop pass over the token accumulator: one synthetic assistant
message per identity that still has accumulated text and no final message
event (`Map` iteration order is insertion order). -/
def finishTokens (source : ChatSource) (eventsSorted : List JVal)
    (acc : List (JVal × String)) : List ChatMessage :=
  acc.filterMap (fun p =>
    if !hasFinalFor eventsSorted p.1 && p.2 ≠ "" then
      some { id := .vstr ("tok:" ++ jsToString p.1), role := .vstr "assistant",
             text := .vstr p.2,
             raw := jobj [("message_id", p.1), ("type", .vstr "token")],
             kind := .assistant, toolName := none, source := source }
    else none)

/-- `const t = it.type || it.role` of the transcript loop. -/
def trT (it : JVal) : JVal :=
  if truthy (dot it "type") then dot it "type" else dot it "role"

/-- `const role = it.role || (t === 'message' ? 'assistant' : t) || 'item'`. -/
def trRole (it : JVal) : JVal :=
  if truthy (dot it "role") then dot it "role"
  else if truthy (if jsEq (trT it) (.vstr "message") then .vstr "assistant" else trT it)
    then (if jsEq (trT it) (.vstr "message") then .vstr "assistant" else trT it)
  else .vstr "item"

/-- The transcript loop's role-to-kind mapping (it also maps `tool`). -/
def trKind (role : JVal) : MsgKind :=
  if jsEq role (.vstr "user") then .user
  else if jsEq role (.vstr "assistant") then .assistant
  else if jsEq role (.vstr "tool") then .tool
  else .system

/-- One iteration of the transcript fallback loop (taken only when the event
batch is empty).  The first access `it.type` throws for a nullish item. -/
def transcriptStep (source : ChatSource) (msgs : List ChatMessage) (it : JVal) :
    Except Unit (List ChatMessage) := do
  let tyv ← jget it "type"
  if jsEq (if truthy tyv then tyv else dot it "role") (.vstr "function_call") ||
      jsEq (if truthy tyv then tyv else dot it "role") (.vstr "function_call_output") then
    .ok msgs
  else do
    let text ← extractText it
    .ok (msgs ++
      [{ id := if truthy (dot it "id") then dot it "id"
           else .vstr ("t:" ++ toString msgs.length),
         role := trRole it, text := .vstr text, raw := it, kind := trKind (trRole it),
         toolName := none, source := source }])

def runTranscript (source : ChatSource) :
    List ChatMessage → List JVal → Except Unit (List ChatMessage)
  | msgs, [] => .ok msgs
  | msgs, it :: rest => do
      let msgs2 ← transcriptStep source msgs it
      runTranscript source msgs2 rest

/-- One iteration of the realtime-log loop.  The first access `l.kind` throws
for a nullish record. -/
def rtStep (msgs : List ChatMessage) (l : JVal) : Except Unit (List ChatMessage) := do
  let k ← jget l "kind"
  if jsEq k (.vstr "text") && truthy (dot l "role") && truthy (dot l "content") then
    return msgs ++
      [{ id := .vstr ("rt:" ++ jsToString (dot l "id")), role := dot l "role",
         text := dot l "content", raw := l,
         kind := if jsEq (dot l "role") (.vstr "user") then .user else .assistant,
         toolName := none, source := .realtime }]
  else
    return msgs

def runRt : List ChatMessage → List JVal → Except Unit (List ChatMessage)
  | msgs, [] => .ok msgs
  | msgs, l :: rest => do
      let msgs2 ← rtStep msgs l
      runRt msgs2 rest

/-- `buildChatMessages` from `web/src/lib/chat.ts`: order the batch, dedup
optimistic placeholders, classify events, append unterminated token
accumulations, fall back to transcript items when the batch is empty, and
append realtime log entries. -/
def buildChatMessages (events transcript realtimeLogs : List JVal)
    (opts : Option ChatSource) : Except Unit (List ChatMessage) := do
  let source := opts.getD .sdk
  let base ←
    if events.length > 0 then do
      let eventsSorted ← sortEvents events
      let st ← runEvents source (realMessageIds eventsSorted)
        (realUserTexts eventsSorted) initSt eventsSorted
      pure (st.msgs ++ finishTokens source eventsSorted st.tokAcc)
    else
      runTranscript source [] transcript
  runRt base realtimeLogs

/-! ### Concrete inputs used by the claims -/

/-- The `tool_call` event of the repository's unit test
(`renders tool_call with args as text`). -/
def evToolCall : JVal := jobj [("type", .vstr "tool_call"), ("seq", .vnum 1),
  ("timestamp_ms", .vnum 1700000000000),
  ("data", jobj [("tool_name", .vstr "WebSearchTool"),
    ("args", jobj [("query", .vstr "today news")])])]

/-- The `tool_result` event of the repository's unit test (trimmed to the
fields the engine could resolve a name or text from). -/
def evToolResult : JVal := jobj [("type", .vstr "tool_result"), ("seq", .vnum 2),
  ("timestamp_ms", .vnum 1700000000001), ("tool_name", .vstr "summarizer_agent_tool"),
  ("data", jobj [("tool", .vstr "summarizer_agent_tool"),
    ("tool_name", .vstr "summarizer_agent_tool")]),
  ("text", .vstr "Hello\n• a\n• b")]

/-- Two events with neither `seq` nor `timestamp_ms`: their comparator keys
tie, so only the arrival-index tie-break orders them. -/
def evTieA : JVal := jobj [("id", .vstr "a")]

def evTieB : JVal := jobj [("id", .vstr "b")]

/-- A `message` event whose `text` is a truthy non-string: the unguarded
`normalizeText(preferred || fallback)` call throws on it. -/
def evBadText : JVal := jobj [("type", .vstr "message"), ("final", .vbool true),
  ("text", jobj [])]

/-- An assistant `message` event with no resolvable text on any path. -/
def evAssistantEmpty : JVal := jobj [("type", .vstr "message"),
  ("role", .vstr "assistant"), ("message_id", .vstr "a1"), ("final", .vbool true),
  ("seq", .vnum 1), ("timestamp_ms", .vnum 1000)]

/-- Optimistic user placeholder, identity `c1`, text `"Hi"`, first in stable
order. -/
def evOptHiA : JVal := jobj [("type", .vstr "message"), ("role", .vstr "user"),
  ("message_id", .vstr "c1"), ("final", .vbool true), ("text", .vstr "Hi"),
  ("seq", .vnum 1), ("timestamp_ms", .vnum 1000),
  ("data", jobj [("optimistic", .vbool true)])]

/-- Optimistic user placeholder, identity `c1`, text `"Hi"`, second in stable
order. -/
def evOptHiB : JVal := jobj [("type", .vstr "message"), ("role", .vstr "user"),
  ("message_id", .vstr "c1"), ("final", .vbool true), ("text", .vstr "Hi"),
  ("seq", .vnum 2), ("timestamp_ms", .vnum 2000),
  ("data", jobj [("optimistic", .vbool true)])]

/-- Server-confirmed user message, identity `s1`, text `"Hi"`, first in stable
order. -/
def evConfHiA : JVal := jobj [("type", .vstr "message"), ("role", .vstr "user"),
  ("message_id", .vstr "s1"), ("final", .vbool true), ("text", .vstr "Hi"),
  ("seq", .vnum 1), ("timestamp_ms", .vnum 1000)]

/-- Server-confirmed user message, identity `s1`, text `"Hi"`, second in
stable order. -/
def evConfHiB : JVal := jobj [("type", .vstr "message"), ("role", .vstr "user"),
  ("message_id", .vstr "s1"), ("final", .vbool true), ("text", .vstr "Hi"),
  ("seq", .vnum 2), ("timestamp_ms", .vnum 2000)]

/-- A lone optimistic user placeholder carrying `txt`, with no confirmation
anywhere in the batch. -/
def evOptLone (txt : String) : JVal := jobj [("type", .vstr "message"),
  ("role", .vstr "user"), ("message_id", .vstr "c1"), ("final", .vbool true),
  ("text", .vstr txt), ("seq", .vnum 1), ("timestamp_ms", .vnum 1000),
  ("data", jobj [("optimistic", .vbool true)])]

/-- Token fragment `"Hel"` for identity `m1`. -/
def evTokHel : JVal := jobj [("type", .vstr "token"), ("message_id", .vstr "m1"),
  ("text", .vstr "Hel"), ("seq", .vnum 1), ("timestamp_ms", .vnum 1000)]

/-- Token fragment `"lo"` for identity `m1`. -/
def evTokLo : JVal := jobj [("type", .vstr "token"), ("message_id", .vstr "m1"),
  ("text", .vstr "lo"), ("seq", .vnum 2), ("timestamp_ms", .vnum 1001)]

/-- Non-optimistic user echo, identity `s1`, text `"Hi"`, timestamp 1000. -/
def evEchoS1 : JVal := jobj [("type", .vstr "message"), ("role", .vstr "user"),
  ("message_id", .vstr "s1"), ("final", .vbool true), ("text", .vstr "Hi"),
  ("seq", .vnum 1), ("timestamp_ms", .vnum 1000)]

/-- Non-optimistic user echo, identity `s2`, same text `"Hi"`, timestamp 2000
(inside the 7.5 s window of `evEchoS1`). -/
def evEchoS2 : JVal := jobj [("type", .vstr "message"), ("role", .vstr "user"),
  ("message_id", .vstr "s2"), ("final", .vbool true), ("text", .vstr "Hi"),
  ("seq", .vnum 2), ("timestamp_ms", .vnum 2000)]

/-- Second non-optimistic echo carrying the same identity `s1` as
`evEchoS1`. -/
def evEchoS1Again : JVal := jobj [("type", .vstr "message"), ("role", .vstr "user"),
  ("message_id", .vstr "s1"), ("final", .vbool true), ("text", .vstr "Hi"),
  ("seq", .vnum 2), ("timestamp_ms", .vnum 2000)]

/-- Second optimistic copy of the same text within the window, identity
`c2`. -/
def evOptHiC2 : JVal := jobj [("type", .vstr "message"), ("role", .vstr "user"),
  ("message_id", .vstr "c2"), ("final", .vbool true), ("text", .vstr "Hi"),
  ("seq", .vnum 2), ("timestamp_ms", .vnum 2000),
  ("data", jobj [("optimistic", .vbool true)])]

/-- A handoff event: destination agent in `agent_id`, optional `reason`, and
the source agent only inside the payload (`data.from_agent`). -/
def evHandoff (dest : String) (reason : JVal) : JVal := jobj
  [("type", .vstr "handoff"), ("seq", .vnum 1), ("timestamp_ms", .vnum 1000),
   ("agent_id", .vstr dest), ("reason", reason),
   ("data", jobj [("from_agent", .vstr "alice"), ("to_agent", .vstr dest)])]

/-- The user message the surviving confirmed event renders to. -/
def userHiMsg (idStr : String) (raw : JVal) : ChatMessage :=
  { id := .vstr idStr, role := .vstr "user", text := .vstr "Hi", raw := raw,
    kind := .user, toolName := none, source := .sdk }

/-- Counts user-kind messages showing text `"Hi"`. -/
def countUserHi (ms : List ChatMessage) : Nat :=
  ms.countP (fun m => m.kind == MsgKind.user && jsEq m.text (.vstr "Hi"))

/-! ### Claim theorems -/

/-- C1: the spec (and the repository's own unit tests) require `tool_call` /
`tool_result` events to produce a `tool`-kind message with a resolved tool
name, but the event loop of `buildChatMessages` has no branch for either type:
both events are dropped and the output is empty. -/
theorem claim1_tool_events_emit_nothing :
    buildChatMessages [evToolCall] [] [] (some .sdk) = .ok [] ∧
    buildChatMessages [evToolResult] [] [] (some .sdk) = .ok [] :=
  ⟨rfl, rfl⟩

/-- C2 counterexample: two events with tied (absent) `sequence` and
`timestamp` keys are ordered by arrival index, so swapping them in the input
swaps them in the output — re-ordering a permutation of a batch does not
always yield the same result. -/
theorem claim2_counterexample :
    (sortEvents [evTieA, evTieB]).map (List.map (fun e => dot e "id")) =
      .ok [.vstr "a", .vstr "b"] ∧
    (sortEvents [evTieB, evTieA]).map (List.map (fun e => dot e "id")) =
      .ok [.vstr "b", .vstr "a"] ∧
    [JVal.vstr "a", JVal.vstr "b"] ≠ [JVal.vstr "b", JVal.vstr "a"] :=
  ⟨rfl, rfl, by simp⟩

/-- C3 counterexample: a `message` event whose `text` field is a truthy
non-string reaches `normalizeText(preferred || fallback)` unguarded, and the
call throws (`s.replace` is not a function) — `buildChatMessages` does not
tolerate every malformed record. -/
theorem claim3_counterexample :
    buildChatMessages [evBadText] [] [] none = .error () := rfl

/-- C4 counterexample: on the transcript fallback path nothing suppresses
empty text — an empty transcript item produces a message whose `text` is the
empty string. -/
theorem claim4_counterexample :
    (buildChatMessages [] [jobj []] [] none).map (List.map ChatMessage.text) =
      .ok [.vstr ""] := rfl

/-- C5: an optimistic user event (identity `c1`, text `"Hi"`) and a confirmed
user event (identity `s1`, same normalized text, within the recency window)
assemble to exactly one user message `"Hi"` — the confirmed copy — whichever
of the two sorts first. -/
theorem claim5_optimistic_superseded :
    buildChatMessages [evOptHiA, evConfHiB] [] [] none =
      .ok [userHiMsg "e:2" evConfHiB] ∧
    buildChatMessages [evOptHiB, evConfHiA] [] [] none =
      .ok [userHiMsg "e:1" evConfHiA] ∧
    (buildChatMessages [evOptHiA, evConfHiB] [] [] none).map countUserHi = .ok 1 ∧
    (buildChatMessages [evOptHiB, evConfHiA] [] [] none).map countUserHi = .ok 1 :=
  ⟨rfl, rfl, rfl, rfl⟩

/-- A confirmed user message whose text lives in `content` (so it is outside
`realUserTexts`, which demands a string `text` field): only the recency-window
guard can collapse its optimistic twin. -/
def evConfContentHi : JVal := jobj [("type", .vstr "message"), ("role", .vstr "user"),
  ("message_id", .vstr "s1"), ("final", .vbool true), ("content", .vstr "Hi"),
  ("seq", .vnum 1), ("timestamp_ms", .vnum 1000)]

/-- C8 counterexample: two non-optimistic user events with identical
normalized text `"Hi"`, different identities, timestamps 1 s apart (well
inside the 7.5 s window) are both emitted — the window guard only skips the
current event when it is the optimistic copy, so duplicate confirmed echoes
are not collapsed. -/
theorem claim8_counterexample :
    (buildChatMessages [evEchoS1, evEchoS2] [] [] none).map countUserHi = .ok 2 :=
  rfl

/-- C8 as the code implements it: within the 7.5 s window a duplicate is
skipped only when the current event is the optimistic copy (two optimistic
copies collapse; a confirmed copy followed by its optimistic twin keeps only
the confirmed one), and a repeated `message_id` is always collapsed; two
confirmed echoes with different identities both survive
(`claim8_counterexample`). -/
theorem claim8_window_skips_optimistic_only :
    (buildChatMessages [evOptHiA, evOptHiC2] [] [] none).map countUserHi = .ok 1 ∧
    (buildChatMessages [evConfContentHi, evOptHiB] [] [] none).map
      (List.map ChatMessage.id) = .ok [.vstr "e:1"] ∧
    (buildChatMessages [evConfContentHi, evOptHiB] [] [] none).map countUserHi =
      .ok 1 ∧
    (buildChatMessages [evEchoS1, evEchoS1Again] [] [] none).map countUserHi =
      .ok 1 :=
  ⟨rfl, rfl, rfl, rfl⟩

/-- C9 counterexample: the handoff message text names only the destination
agent — for a handoff from `alice` to `bob` (source agent present in the
payload as `data.from_agent`) the rendered text is exactly `"Handoff to bob"`,
in which the source agent's name does not occur. -/
theorem claim9_counterexample :
    (buildChatMessages [evHandoff "bob" .vundef] [] [] none).map
      (List.map ChatMessage.text) = .ok [.vstr "Handoff to bob"] ∧
    ¬ "alice".toList <:+: "Handoff to bob".toList :=
  ⟨rfl, by decide⟩

/-! ### Shared proof helpers -/

@[simp] theorem exceptBind_ok {α β : Type} (a : α) (f : α → Except Unit β) :
    (Except.ok a >>= f : Except Unit β) = f a := rfl

@[simp] theorem exceptBind_error {α β : Type} (e : Unit) (f : α → Except Unit β) :
    ((Except.error e : Except Unit α) >>= f) = .error e := rfl

@[simp] theorem exceptPure {α : Type} (a : α) :
    (pure a : Except Unit α) = .ok a := rfl

/-- Evaluating `buildChatMessages` on a single handoff event, with the
reason-dependent parts left symbolic. -/
theorem buildChat_handoff_eq (dest : String) (r : JVal) :
    buildChatMessages [evHandoff dest r] [] [] none =
      .ok [{ id := .vstr "handoff:1", role := .vstr "system",
             text := .vstr ("Handoff to " ++ jsToString (dot (evHandoff dest r) "agent_id") ++
               (if truthy (dot (evHandoff dest r) "reason") then
                 " – " ++ jsToString (dot (evHandoff dest r) "reason") else "")),
             raw := evHandoff dest r, kind := .system, toolName := none,
             source := .sdk }] := rfl

/-- C9 (amended): a handoff event always yields exactly one system-kind
message — even though a handoff event has no resolvable display text, the
canned description is emitted — and the text names the destination agent and
the optional non-empty reason (`"Handoff to X"` / `"Handoff to X – R"`); the
source agent is not part of the text (see the counterexample). -/
theorem claim9_handoff_message_shape :
    (∀ dest : String,
      buildChatMessages [evHandoff dest .vundef] [] [] none =
        .ok [{ id := .vstr "handoff:1", role := .vstr "system",
               text := .vstr ("Handoff to " ++ dest),
               raw := evHandoff dest .vundef, kind := .system, toolName := none,
               source := .sdk }]) ∧
    (∀ dest reason : String, reason ≠ "" →
      buildChatMessages [evHandoff dest (.vstr reason)] [] [] none =
        .ok [{ id := .vstr "handoff:1", role := .vstr "system",
               text := .vstr ("Handoff to " ++ dest ++ " – " ++ reason),
               raw := evHandoff dest (.vstr reason), kind := .system,
               toolName := none, source := .sdk }]) := by
  constructor
  · intro dest
    rw [buildChat_handoff_eq]
    simp [evHandoff, jobj, listToJObj, JObj.find, dot, truthy, jsToString]
  · intro dest reason hr
    rw [buildChat_handoff_eq]
    simp [evHandoff, jobj, listToJObj, JObj.find, dot, truthy, jsToString, hr,
      String.append_assoc]

/-- Witness for C9's theorem at `dest = "bob"`, `reason = "load"`. -/
theorem claim9_witness :
    buildChatMessages [evHandoff "bob" (.vstr "load")] [] [] none =
      .ok [{ id := .vstr "handoff:1", role := .vstr "system",
             text := .vstr "Handoff to bob – load",
             raw := evHandoff "bob" (.vstr "load"), kind := .system,
             toolName := none, source := .sdk }] :=
  claim9_handoff_message_shape.2 "bob" "load" (by decide)

/-- C6: a lone optimistic user placeholder with non-empty (normalized-form)
text and no confirmation anywhere in the batch is not dropped: the output is
exactly one user message carrying that text. -/
theorem claim6_lone_optimistic_kept (txt : String)
    (h1 : normalizeText txt = txt) (h2 : txt ≠ "") :
    buildChatMessages [evOptLone txt] [] [] none =
      .ok [{ id := .vstr "e:1", role := .vstr "user", text := .vstr txt,
             raw := evOptLone txt, kind := .user, toolName := none,
             source := .sdk }] := by
  simp [buildChatMessages, sortEvents, keyEnts, jget, nullish, evOptLone, jobj,
    listToJObj, JObj.find, dot, realMessageIds, realUserTexts, runEvents, stepEv,
    initSt, jsEq, truthy, isStr, asStr, alistGet, alistSet, numOr, extractText,
    normalizeTextJ, h1, h2, finishTokens, hasFinalFor, runRt, jsToString,
    List.insertionSort, List.orderedInsert, entLe, maxSafeInteger, isArr, arrOf,
    isObjTypeof, jsJoin, isNum, List.find?, List.contains, resolveText,
    preferredOf, progressiveOf, roleOf, kindOf, eventMsg, messageStep, userStep,
    nonUserStep, msgIsOpt, msgEvText, userMidS, userTs, inWindowB, seenAfter,
    recentAfter]
  rfl

/-- Witness for C6's theorem at `txt = "Hi"`. -/
theorem claim6_witness :
    buildChatMessages [evOptLone "Hi"] [] [] none =
      .ok [{ id := .vstr "e:1", role := .vstr "user", text := .vstr "Hi",
             raw := evOptLone "Hi", kind := .user, toolName := none,
             source := .sdk }] :=
  claim6_lone_optimistic_kept "Hi" rfl (by decide)

/-- `jsEq` only equates equal values (it is reference equality on objects and
value equality on primitives). -/
theorem jsEq_eq {a b : JVal} (h : jsEq a b = true) : a = b := by
  cases a <;> cases b <;> simp_all [jsEq]

/-- C7: token fragments `"Hel"`, `"lo"` for identity `m1` with no terminal
message assemble to exactly one assistant message `"Hello"`; and in general
any identity that ends the batch with a non-empty accumulation and no final
`message` event contributes its concatenated text as a synthetic assistant
message to the output — streaming text is never silently dropped. -/
theorem claim7_streaming_concatenated :
    (buildChatMessages [evTokHel, evTokLo] [] [] none =
      .ok [{ id := .vstr "tok:m1", role := .vstr "assistant", text := .vstr "Hello",
             raw := jobj [("message_id", .vstr "m1"), ("type", .vstr "token")],
             kind := .assistant, toolName := none, source := .sdk }]) ∧
    (∀ (evs ts : List JVal) (src : Option ChatSource) (sorted : List JVal)
        (st : LoopSt) (mid : JVal) (acc : String),
      sortEvents evs = .ok sorted →
      runEvents (src.getD .sdk) (realMessageIds sorted) (realUserTexts sorted)
        initSt sorted = .ok st →
      alistGet jsEq st.tokAcc mid = some acc →
      acc ≠ "" →
      hasFinalFor sorted mid = false →
      ∃ ms, buildChatMessages evs ts [] src = .ok ms ∧
        ({ id := .vstr ("tok:" ++ jsToString mid), role := .vstr "assistant",
           text := .vstr acc,
           raw := jobj [("message_id", mid), ("type", .vstr "token")],
           kind := .assistant, toolName := none, source := src.getD .sdk } :
          ChatMessage) ∈ ms) := by
  constructor
  · rfl
  · intro evs ts src sorted st mid acc h1 h2 h3 h4 h5
    rcases evs with _ | ⟨e, rest⟩
    · exfalso
      have hs : sorted = [] := by
        have h0 : sortEvents [] = .ok ([] : List JVal) := rfl
        rw [h0] at h1
        exact (Except.ok.injEq _ _).mp h1.symm
      subst hs
      have hst : st = initSt := by
        simpa [runEvents] using h2.symm
      subst hst
      simp [alistGet, initSt, List.find?] at h3
    · have hb : buildChatMessages (e :: rest) ts [] src =
          .ok (st.msgs ++ finishTokens (src.getD .sdk) sorted st.tokAcc) := by
        simp only [buildChatMessages]
        rw [if_pos (by simp)]
        rw [h1]
        simp only [exceptBind_ok]
        rw [h2]
        simp only [exceptBind_ok, exceptPure]
        rfl
      refine ⟨_, hb, ?_⟩
      apply List.mem_append_right
      unfold alistGet at h3
      rcases hfind : st.tokAcc.find? (fun p => jsEq p.1 mid) with _ | p
      · rw [hfind] at h3; simp at h3
      · rw [hfind] at h3
        simp only [Option.map] at h3
        have hpm : p ∈ st.tokAcc := List.mem_of_find?_eq_some hfind
        have hpe : jsEq p.1 mid = true := by
          have hq := List.find?_some hfind
          simpa using hq
        have hp1 : p.1 = mid := jsEq_eq hpe
        have hp2 : p.2 = acc := by injection h3
        apply List.mem_filterMap.mpr
        refine ⟨p, hpm, ?_⟩
        rw [hp1, hp2]
        simp [finishTokens, h5, h4]

/-- Witness for C7's general part at the two-fragment batch. -/
theorem claim7_witness :
    ∃ ms, buildChatMessages [evTokHel, evTokLo] [] [] none = .ok ms ∧
      ({ id := .vstr ("tok:" ++ jsToString (.vstr "m1")), role := .vstr "assistant",
         text := .vstr "Hello",
         raw := jobj [("message_id", .vstr "m1"), ("type", .vstr "token")],
         kind := .assistant, toolName := none, source := ChatSource.sdk } :
        ChatMessage) ∈ ms :=
  claim7_streaming_concatenated.2 [evTokHel, evTokLo] [] none
    [evTokHel, evTokLo] ⟨[(.vstr "m1", "Hello")], [], [], []⟩ (.vstr "m1") "Hello"
    rfl rfl rfl (by decide) rfl

/-- A handoff message's text always starts with `"Handoff to "`, hence is
never empty. -/
theorem handoff_text_ne (ev : JVal) : handoffText ev ≠ "" := by
  intro h
  have hl := congrArg String.length h
  rw [handoffText, String.append_assoc, String.length_append] at hl
  simp at hl
  exact absurd hl.1 (by decide)

/-- The user tail either leaves the output untouched or appends the one
resolved message, whose text is non-empty. -/
theorem userStep_msgs (source : ChatSource) (st : LoopSt) (ev : JVal)
    (isOpt : Bool) (text : String) :
    (userStep source st ev isOpt text).msgs = st.msgs ∨
    (text ≠ "" ∧
      (userStep source st ev isOpt text).msgs = st.msgs ++ [eventMsg source ev text]) := by
  unfold userStep
  split
  · left; rfl
  · split
    · left; rfl
    · split
      · left; rfl
      · right; exact ⟨by assumption, rfl⟩

/-- The non-user tail either leaves the output untouched or appends the one
resolved message, whose text is non-empty. -/
theorem nonUserStep_msgs (source : ChatSource) (st : LoopSt) (ev : JVal)
    (text : String) :
    (nonUserStep source st ev text).msgs = st.msgs ∨
    (text ≠ "" ∧
      (nonUserStep source st ev text).msgs = st.msgs ++ [eventMsg source ev text]) := by
  unfold nonUserStep
  split
  · left; rfl
  · right; exact ⟨by assumption, rfl⟩

/-- The `message` branch appends at most one message, always with non-empty
text. -/
theorem messageStep_msgs (source : ChatSource) (rmids : List JVal)
    (ruts : List String) (st : LoopSt) (ev : JVal) (st' : LoopSt)
    (h : messageStep source rmids ruts st ev = .ok st') :
    st'.msgs = st.msgs ∨
    ∃ text, text ≠ "" ∧ st'.msgs = st.msgs ++ [eventMsg source ev text] := by
  unfold messageStep at h
  split at h
  · left; rw [← (Except.ok.injEq _ _).mp h]
  · split at h
    · left; rw [← (Except.ok.injEq _ _).mp h]
    · rcases hrt : resolveText st.tokAcc ev with e | text
      · rw [hrt] at h
        simp only [exceptBind_error] at h
        exact Except.noConfusion h
      · rw [hrt] at h
        simp only [exceptBind_ok] at h
        split at h
        · have hst : st' = userStep source st ev (msgIsOpt ev) text :=
            ((Except.ok.injEq _ _).mp h).symm
          rw [hst]
          rcases userStep_msgs source st ev (msgIsOpt ev) text with hu | ⟨hne, hu⟩
          · left; exact hu
          · right; exact ⟨text, hne, hu⟩
        · have hst : st' = nonUserStep source st ev text :=
            ((Except.ok.injEq _ _).mp h).symm
          rw [hst]
          rcases nonUserStep_msgs source st ev text with hu | ⟨hne, hu⟩
          · left; exact hu
          · right; exact ⟨text, hne, hu⟩

/-- One loop iteration appends at most one message, always with truthy
text. -/
theorem stepEv_msgs (source : ChatSource) (rmids : List JVal)
    (ruts : List String) (st : LoopSt) (ev : JVal) (st' : LoopSt)
    (h : stepEv source rmids ruts st ev = .ok st') :
    st'.msgs = st.msgs ∨
    ∃ m, st'.msgs = st.msgs ++ [m] ∧ truthy m.text = true := by
  unfold stepEv at h
  cases hjt : jget ev "type" with
  | error e =>
    rw [hjt] at h
    simp only [exceptBind_error] at h
    exact Except.noConfusion h
  | ok ty =>
    rw [hjt] at h
    simp only [exceptBind_ok] at h
    split at h
    · left; rw [← (Except.ok.injEq _ _).mp h]
    · split at h
      · right
        refine ⟨handoffMsg source ev, ?_, ?_⟩
        · rw [← (Except.ok.injEq _ _).mp h]
        · simp [handoffMsg, truthy, handoff_text_ne]
      · split at h
        · rcases messageStep_msgs source rmids ruts st ev st' h with hm | ⟨text, hne, hm⟩
          · left; exact hm
          · right
            refine ⟨eventMsg source ev text, hm, ?_⟩
            simp [eventMsg, truthy, hne]
        · left; rw [← (Except.ok.injEq _ _).mp h]

/-- The event loop preserves "every emitted message has truthy text". -/
theorem runEvents_msgs_all (source : ChatSource) (rmids : List JVal)
    (ruts : List String) :
    ∀ (l : List JVal) (st st' : LoopSt),
      runEvents source rmids ruts st l = .ok st' →
      (∀ m ∈ st.msgs, truthy m.text = true) →
      (∀ m ∈ st'.msgs, truthy m.text = true) := by
  intro l
  induction l with
  | nil =>
    intro st st' h hinv
    simp only [runEvents] at h
    rw [← (Except.ok.injEq _ _).mp h]
    exact hinv
  | cons ev rest ih =>
    intro st st' h hinv
    simp only [runEvents] at h
    cases hs : stepEv source rmids ruts st ev with
    | error e =>
      rw [hs] at h
      simp only [exceptBind_error] at h
      exact Except.noConfusion h
    | ok st2 =>
      rw [hs] at h
      simp only [exceptBind_ok] at h
      refine ih st2 st' h ?_
      rcases stepEv_msgs source rmids ruts st ev st2 hs with hm | ⟨m, hm, ht⟩
      · rw [hm]; exact hinv
      · intro x hx
        rw [hm] at hx
        rcases List.mem_append.mp hx with h1 | h2
        · exact hinv x h1
        · rw [List.mem_singleton.mp h2]
          exact ht

/-- Synthetic streaming messages always carry the (non-empty) accumulated
text. -/
theorem finishTokens_msgs_all (source : ChatSource) (sorted : List JVal)
    (acc : List (JVal × String)) :
    ∀ m ∈ finishTokens source sorted acc, truthy m.text = true := by
  intro m hm
  rcases List.mem_filterMap.mp hm with ⟨p, _, hp⟩
  split at hp
  · rename_i hcond
    rw [← Option.some.inj hp]
    have h2 : p.2 ≠ "" := by
      have hc2 := hcond
      rw [Bool.and_eq_true] at hc2
      simpa using hc2.2
    simp [truthy, h2]
  · exact Option.noConfusion hp

/-- One realtime-log iteration appends at most one message, whose text is the
truthiness-guarded `content`. -/
theorem rtStep_msgs (msgs : List ChatMessage) (l : JVal)
    (msgs' : List ChatMessage) (h : rtStep msgs l = .ok msgs') :
    msgs' = msgs ∨ ∃ m, msgs' = msgs ++ [m] ∧ truthy m.text = true := by
  unfold rtStep at h
  cases hjt : jget l "kind" with
  | error e =>
    rw [hjt] at h
    simp only [exceptBind_error] at h
    exact Except.noConfusion h
  | ok k =>
    rw [hjt] at h
    simp only [exceptBind_ok] at h
    split at h
    · right
      refine ⟨_, (Eq.symm ((Except.ok.injEq _ _).mp h)), ?_⟩
      rename_i hcond
      have hc2 := hcond
      rw [Bool.and_eq_true] at hc2
      exact hc2.2
    · left; rw [← (Except.ok.injEq _ _).mp h]

/-- The realtime-log loop preserves "every message has truthy text". -/
theorem runRt_msgs_all :
    ∀ (rls : List JVal) (msgs msgs' : List ChatMessage),
      runRt msgs rls = .ok msgs' →
      (∀ m ∈ msgs, truthy m.text = true) →
      (∀ m ∈ msgs', truthy m.text = true) := by
  intro rls
  induction rls with
  | nil =>
    intro msgs msgs' h hinv
    simp only [runRt] at h
    rw [← (Except.ok.injEq _ _).mp h]
    exact hinv
  | cons l rest ih =>
    intro msgs msgs' h hinv
    simp only [runRt] at h
    cases hs : rtStep msgs l with
    | error e =>
      rw [hs] at h
      simp only [exceptBind_error] at h
      exact Except.noConfusion h
    | ok msgs2 =>
      rw [hs] at h
      simp only [exceptBind_ok] at h
      refine ih msgs2 msgs' h ?_
      rcases rtStep_msgs msgs l msgs2 hs with hm | ⟨m, hm, ht⟩
      · rw [hm]; exact hinv
      · intro x hx
        rw [hm] at hx
        rcases List.mem_append.mp hx with h1 | h2
        · exact hinv x h1
        · rw [List.mem_singleton.mp h2]
          exact ht

/-- C4 (amended): on the events path (non-empty batch) every Transcript
Message — including appended streaming and realtime entries — has truthy,
in particular non-empty, text; and an assistant `message` event whose every
text-resolution path yields the empty string produces no message at all.
(The transcript fallback path lacks this guarantee: see the
counterexample.) -/
theorem claim4_events_path_nonempty_text :
    (∀ (evs ts rls : List JVal) (src : Option ChatSource) (ms : List ChatMessage),
      evs ≠ [] → buildChatMessages evs ts rls src = .ok ms →
      ∀ m ∈ ms, truthy m.text = true) ∧
    buildChatMessages [evAssistantEmpty] [] [] none = .ok [] := by
  constructor
  · intro evs ts rls src ms hne h
    unfold buildChatMessages at h
    rw [if_pos (List.length_pos.mpr hne)] at h
    cases hso : sortEvents evs with
    | error e =>
      rw [hso] at h
      simp only [exceptBind_error] at h
      exact Except.noConfusion h
    | ok sorted =>
      rw [hso] at h
      simp only [exceptBind_ok] at h
      cases hru : runEvents (src.getD .sdk) (realMessageIds sorted)
          (realUserTexts sorted) initSt sorted with
      | error e =>
        rw [hru] at h
        simp only [exceptBind_error] at h
        exact Except.noConfusion h
      | ok st =>
        rw [hru] at h
        simp only [exceptBind_ok, exceptPure] at h
        refine runRt_msgs_all rls _ ms h ?_
        intro m hm
        rcases List.mem_append.mp hm with h1 | h2
        · refine runEvents_msgs_all (src.getD .sdk) (realMessageIds sorted)
            (realUserTexts sorted) sorted initSt st hru ?_ m h1
          intro x hx
          simp [initSt] at hx
        · exact finishTokens_msgs_all (src.getD .sdk) sorted st.tokAcc m h2
  · rfl

/-- Witness for C4's theorem: the single confirmed user message batch. -/
theorem claim4_witness :
    truthy (userHiMsg "e:1" evConfHiA).text = true :=
  claim4_events_path_nonempty_text.1 [evConfHiA] [] [] none
    [userHiMsg "e:1" evConfHiA] (by simp) rfl (userHiMsg "e:1" evConfHiA) (by simp)

/-- A user-kind message of the events path (realtime entries are tagged
with their own source channel and excluded) whose raw event carries the
string identity `mid`. -/
def isUserFor (mid : String) (m : ChatMessage) : Bool :=
  m.kind == MsgKind.user && !(m.source == ChatSource.realtime) &&
    jsEq (dot m.raw "message_id") (.vstr mid)

/-- The loop invariant behind the at-most-one-user-message-per-identity
guarantee: the count is bounded by one, and a counted identity has been
recorded in `seenUserIds`. -/
def C10Inv (mid : String) (st : LoopSt) : Prop :=
  st.msgs.countP (isUserFor mid) ≤ 1 ∧
    (1 ≤ st.msgs.countP (isUserFor mid) → mid ∈ st.seenUserIds)

/-- Recording an identity only grows `seenUserIds`. -/
theorem seenAfter_superset (st : LoopSt) (ev : JVal) :
    ∀ x ∈ st.seenUserIds, x ∈ seenAfter st ev := by
  intro x hx
  unfold seenAfter
  split
  · exact List.mem_append_left _ hx
  · exact hx

/-- The user tail preserves the dedup invariant: a second event with a seen
identity is skipped, and a pushed identity is recorded. -/
theorem userStep_inv (mid : String) (hmid : mid ≠ "") (source : ChatSource)
    (st : LoopSt) (ev : JVal) (isOpt : Bool) (text : String)
    (hinv : C10Inv mid st) : C10Inv mid (userStep source st ev isOpt text) := by
  unfold userStep
  split
  · exact hinv
  · split
    · exact hinv
    · split
      · exact ⟨hinv.1, fun hc => seenAfter_superset st ev mid (hinv.2 hc)⟩
      · rename_i hnotseen _ _
        by_cases hm : isUserFor mid (eventMsg source ev text) = true
        · have hmid_ev : userMidS ev = mid := by
            have hj : jsEq (dot ev "message_id") (.vstr mid) = true := by
              have hc := hm
              rw [isUserFor, Bool.and_eq_true] at hc
              exact hc.2
            have hd : dot ev "message_id" = .vstr mid := jsEq_eq hj
            rw [userMidS, hd]
            simp [isStr, asStr]
          have hnins : mid ∉ st.seenUserIds := by
            intro hmem
            apply hnotseen
            rw [hmid_ev]
            simp [hmid]
            exact hmem
          have hzero : st.msgs.countP (isUserFor mid) = 0 := by
            by_contra hnz
            exact hnins (hinv.2 (Nat.one_le_iff_ne_zero.mpr hnz))
          constructor
          · simp only [List.countP_append, hzero]
            simp [hm]
          · intro _
            unfold seenAfter
            rw [hmid_ev]
            simp [hmid]
        · constructor
          · simp only [List.countP_append]
            have h0 : List.countP (isUserFor mid) [eventMsg source ev text] = 0 := by
              simp [List.countP, List.countP.go, hm]
            rw [h0]
            simpa using hinv.1
          · intro hc
            simp only [List.countP_append] at hc
            have h0 : List.countP (isUserFor mid) [eventMsg source ev text] = 0 := by
              simp [List.countP, List.countP.go, hm]
            rw [h0] at hc
            exact seenAfter_superset st ev mid (hinv.2 (by omega))

/-- The non-user tail cannot add user-kind messages. -/
theorem nonUserStep_inv (mid : String) (source : ChatSource) (st : LoopSt)
    (ev : JVal) (text : String) (hkind : ¬ kindOf (roleOf ev) = MsgKind.user)
    (hinv : C10Inv mid st) : C10Inv mid (nonUserStep source st ev text) := by
  unfold nonUserStep
  split
  · exact hinv
  · have hkf : (kindOf (roleOf ev) == MsgKind.user) = false := by
      simpa using hkind
    have h0 : List.countP (isUserFor mid) [eventMsg source ev text] = 0 := by
      simp [List.countP, List.countP.go, isUserFor, eventMsg, hkf]
    constructor
    · simp only [List.countP_append, h0]
      simpa using hinv.1
    · intro hc
      simp only [List.countP_append, h0] at hc
      exact hinv.2 (by omega)

/-- The `message` branch preserves the dedup invariant. -/
theorem messageStep_inv (mid : String) (hmid : mid ≠ "") (source : ChatSource)
    (rmids : List JVal) (ruts : List String) (st : LoopSt) (ev : JVal)
    (st' : LoopSt) (h : messageStep source rmids ruts st ev = .ok st')
    (hinv : C10Inv mid st) : C10Inv mid st' := by
  unfold messageStep at h
  split at h
  · rw [← (Except.ok.injEq _ _).mp h]; exact hinv
  · split at h
    · rw [← (Except.ok.injEq _ _).mp h]; exact hinv
    · rcases hrt : resolveText st.tokAcc ev with e | text
      · rw [hrt] at h
        simp only [exceptBind_error] at h
        exact Except.noConfusion h
      · rw [hrt] at h
        simp only [exceptBind_ok] at h
        split at h
        · rw [← (Except.ok.injEq _ _).mp h]
          exact userStep_inv mid hmid source st ev (msgIsOpt ev) text hinv
        · rw [← (Except.ok.injEq _ _).mp h]
          exact nonUserStep_inv mid source st ev text (by assumption) hinv

/-- Every loop iteration preserves the dedup invariant. -/
theorem stepEv_inv (mid : String) (hmid : mid ≠ "") (source : ChatSource)
    (rmids : List JVal) (ruts : List String) (st : LoopSt) (ev : JVal)
    (st' : LoopSt) (h : stepEv source rmids ruts st ev = .ok st')
    (hinv : C10Inv mid st) : C10Inv mid st' := by
  unfold stepEv at h
  cases hjt : jget ev "type" with
  | error e =>
    rw [hjt] at h
    simp only [exceptBind_error] at h
    exact Except.noConfusion h
  | ok ty =>
    rw [hjt] at h
    simp only [exceptBind_ok] at h
    split at h
    · rw [← (Except.ok.injEq _ _).mp h]; exact hinv
    · split at h
      · rw [← (Except.ok.injEq _ _).mp h]
        have hk : (MsgKind.system == MsgKind.user) = false := by decide
        have h0 : List.countP (isUserFor mid) [handoffMsg source ev] = 0 := by
          simp [List.countP, List.countP.go, isUserFor, handoffMsg, hk]
        constructor
        · simp only [List.countP_append, h0]
          simpa using hinv.1
        · intro hc
          simp only [List.countP_append, h0] at hc
          exact hinv.2 (by omega)
      · split at h
        · exact messageStep_inv mid hmid source rmids ruts st ev st' h hinv
        · rw [← (Except.ok.injEq _ _).mp h]; exact hinv

/-- The event loop preserves the dedup invariant. -/
theorem runEvents_inv (mid : String) (hmid : mid ≠ "") (source : ChatSource)
    (rmids : List JVal) (ruts : List String) :
    ∀ (l : List JVal) (st st' : LoopSt),
      runEvents source rmids ruts st l = .ok st' →
      C10Inv mid st → C10Inv mid st' := by
  intro l
  induction l with
  | nil =>
    intro st st' h hinv
    simp only [runEvents] at h
    rw [← (Except.ok.injEq _ _).mp h]
    exact hinv
  | cons ev rest ih =>
    intro st st' h hinv
    simp only [runEvents] at h
    cases hs : stepEv source rmids ruts st ev with
    | error e =>
      rw [hs] at h
      simp only [exceptBind_error] at h
      exact Except.noConfusion h
    | ok st2 =>
      rw [hs] at h
      simp only [exceptBind_ok] at h
      exact ih st2 st' h (stepEv_inv mid hmid source rmids ruts st ev st2 hs hinv)

/-- Synthetic streaming messages are assistant-kind and never count as user
messages. -/
theorem finishTokens_count (mid : String) (source : ChatSource)
    (sorted : List JVal) (acc : List (JVal × String)) :
    (finishTokens source sorted acc).countP (isUserFor mid) = 0 := by
  rw [List.countP_eq_zero]
  intro m hm
  rcases List.mem_filterMap.mp hm with ⟨p, _, hp⟩
  split at hp
  · rw [← Option.some.inj hp]
    simp [isUserFor]
  · exact Option.noConfusion hp

/-- Realtime entries carry the `realtime` source tag and never count. -/
theorem rtStep_count (mid : String) (msgs : List ChatMessage) (l : JVal)
    (msgs' : List ChatMessage) (h : rtStep msgs l = .ok msgs') :
    msgs'.countP (isUserFor mid) = msgs.countP (isUserFor mid) := by
  unfold rtStep at h
  cases hjt : jget l "kind" with
  | error e =>
    rw [hjt] at h
    simp only [exceptBind_error] at h
    exact Except.noConfusion h
  | ok k =>
    rw [hjt] at h
    simp only [exceptBind_ok] at h
    split at h
    · rw [← (Except.ok.injEq _ _).mp h]
      simp only [List.countP_append]
      have h0 : List.countP (isUserFor mid)
          [{ id := .vstr ("rt:" ++ jsToString (dot l "id")), role := dot l "role",
             text := dot l "content", raw := l,
             kind := if jsEq (dot l "role") (.vstr "user") then MsgKind.user
               else MsgKind.assistant,
             toolName := none, source := ChatSource.realtime }] = 0 := by
        have hs : (ChatSource.realtime == ChatSource.realtime) = true := by decide
        simp [List.countP, List.countP.go, isUserFor, hs]
      rw [h0]
      omega
    · rw [← (Except.ok.injEq _ _).mp h]

/-- The realtime loop leaves the events-path user count unchanged. -/
theorem runRt_count (mid : String) :
    ∀ (rls : List JVal) (msgs msgs' : List ChatMessage),
      runRt msgs rls = .ok msgs' →
      msgs'.countP (isUserFor mid) = msgs.countP (isUserFor mid) := by
  intro rls
  induction rls with
  | nil =>
    intro msgs msgs' h
    simp only [runRt] at h
    rw [← (Except.ok.injEq _ _).mp h]
  | cons l rest ih =>
    intro msgs msgs' h
    simp only [runRt] at h
    cases hs : rtStep msgs l with
    | error e =>
      rw [hs] at h
      simp only [exceptBind_error] at h
      exact Except.noConfusion h
    | ok msgs2 =>
      rw [hs] at h
      simp only [exceptBind_ok] at h
      rw [ih msgs2 msgs' h, rtStep_count mid msgs l msgs2 hs]

/-- C10: on the events path the output contains at most one user-kind
Transcript Message for any given (non-empty, string) message identity; in
particular once the optimistic and confirmed copies share an identity only
one message survives. -/
theorem claim10_at_most_one_user_per_id :
    ∀ (evs ts rls : List JVal) (src : Option ChatSource) (ms : List ChatMessage)
      (mid : String),
      evs ≠ [] → mid ≠ "" → buildChatMessages evs ts rls src = .ok ms →
      ms.countP (isUserFor mid) ≤ 1 := by
  intro evs ts rls src ms mid hne hmid h
  unfold buildChatMessages at h
  rw [if_pos (List.length_pos.mpr hne)] at h
  cases hso : sortEvents evs with
  | error e =>
    rw [hso] at h
    simp only [exceptBind_error] at h
    exact Except.noConfusion h
  | ok sorted =>
    rw [hso] at h
    simp only [exceptBind_ok] at h
    cases hru : runEvents (src.getD .sdk) (realMessageIds sorted)
        (realUserTexts sorted) initSt sorted with
    | error e =>
      rw [hru] at h
      simp only [exceptBind_error] at h
      exact Except.noConfusion h
    | ok st =>
      rw [hru] at h
      simp only [exceptBind_ok, exceptPure] at h
      have hinv : C10Inv mid st := by
        refine runEvents_inv mid hmid (src.getD .sdk) (realMessageIds sorted)
          (realUserTexts sorted) sorted initSt st hru ?_
        constructor
        · simp [initSt]
        · intro hc
          simp [initSt] at hc
      have hcount := runRt_count mid rls _ ms h
      rw [hcount, List.countP_append, finishTokens_count]
      simpa using hinv.1

/-- Witness for C10's theorem at the optimistic/confirmed pair. -/
theorem claim10_witness :
    ([userHiMsg "e:2" evConfHiB].countP (isUserFor "s1")) ≤ 1 :=
  claim10_at_most_one_user_per_id [evOptHiA, evConfHiB] [] [] none
    [userHiMsg "e:2" evConfHiB] "s1" (by simp) (by decide) rfl

/-- The event `text` fields for which the unguarded `normalizeText` call is
safe: strings and falsy values. -/
def strOrFalsy (v : JVal) : Bool := isStr v || !truthy v

/-- Property access only throws on a nullish base. -/
theorem jget_ok {v : JVal} (h : nullish v = false) (k : String) :
    jget v k = .ok (dot v k) := by
  simp [jget, h]

/-- Truthy values are not nullish. -/
theorem nullish_of_truthy {v : JVal} (h : truthy v = true) : nullish v = false := by
  cases v <;> simp_all [truthy, nullish]

/-- A conditional between two non-throwing computations does not throw. -/
theorem exceptIte_ok {α : Type} (c : Prop) [Decidable c]
    (x y : Except Unit α) (hx : ∃ s, x = .ok s) (hy : ∃ s, y = .ok s) :
    ∃ s, (if c then x else y) = .ok s := by
  split
  · exact hx
  · exact hy

/-- `extractText` never throws: every property access is dominated by a
guard on its base. -/
theorem extractText_total (item : JVal) : ∃ s, extractText item = .ok s := by
  by_cases ht : truthy item = true
  · have hnn := nullish_of_truthy ht
    unfold extractText
    simp only [ht, Bool.not_true, exceptPure, exceptBind_ok, jget_ok hnn,
      Bool.false_eq_true, if_false]
    repeat' first
    | exact ⟨_, rfl⟩
    | apply exceptIte_ok
  · refine ⟨"", ?_⟩
    unfold extractText
    rw [Bool.not_eq_true] at ht
    simp [ht]

/-- On strings the unguarded `normalizeText` call simply normalizes. -/
theorem normalizeTextJ_vstr (t : String) :
    normalizeTextJ (.vstr t) = .ok (normalizeText t) := by
  by_cases ht : t = ""
  · subst ht; rfl
  · unfold normalizeTextJ
    simp [truthy, ht]

/-- The unguarded `normalizeText` call does not throw on strings or falsy
values. -/
theorem normalizeTextJ_ok_of_strOrFalsy {v : JVal} (h : strOrFalsy v = true) :
    ∃ s, normalizeTextJ v = .ok s := by
  by_cases htr : truthy v = true
  · rw [strOrFalsy, Bool.or_eq_true] at h
    rcases h with h | h
    · cases v <;> simp [isStr] at h
      exact ⟨_, normalizeTextJ_vstr _⟩
    · rw [htr] at h; simp at h
  · rw [Bool.not_eq_true] at htr
    refine ⟨"", ?_⟩
    unfold normalizeTextJ
    simp [htr]

/-- The preferred display value is a string or falsy whenever the event's
`text` field is. -/
theorem preferredOf_strOrFalsy (acc : List (JVal × String)) (ev : JVal)
    (h : strOrFalsy (dot ev "text") = true) :
    strOrFalsy (preferredOf acc ev) = true := by
  unfold preferredOf
  split
  · split
    · exact h
    · simp [strOrFalsy, isStr]
  · split
    · simp [strOrFalsy, isStr]
    · split
      · exact h
      · simp [strOrFalsy, isStr]

/-- Text resolution does not throw when the event's `text` field is a string
or falsy. -/
theorem resolveText_ok (acc : List (JVal × String)) (ev : JVal)
    (h : strOrFalsy (dot ev "text") = true) :
    ∃ s, resolveText acc ev = .ok s := by
  unfold resolveText
  rcases extractText_total ev with ⟨fb, hfb⟩
  rw [hfb]
  simp only [exceptBind_ok]
  apply normalizeTextJ_ok_of_strOrFalsy
  split
  · exact preferredOf_strOrFalsy acc ev h
  · simp [strOrFalsy, isStr]

/-- The `message` branch does not throw for well-typed `text`. -/
theorem messageStep_ok (source : ChatSource) (rmids : List JVal)
    (ruts : List String) (st : LoopSt) (ev : JVal)
    (h : strOrFalsy (dot ev "text") = true) :
    ∃ st', messageStep source rmids ruts st ev = .ok st' := by
  unfold messageStep
  apply exceptIte_ok
  · exact ⟨st, rfl⟩
  · apply exceptIte_ok
    · exact ⟨st, rfl⟩
    · rcases resolveText_ok st.tokAcc ev h with ⟨text, hrt⟩
      rw [hrt]
      simp only [exceptBind_ok]
      apply exceptIte_ok
      · exact ⟨_, rfl⟩
      · exact ⟨_, rfl⟩

/-- A loop iteration does not throw on a non-nullish event with well-typed
`text`. -/
theorem stepEv_ok (source : ChatSource) (rmids : List JVal) (ruts : List String)
    (st : LoopSt) (ev : JVal) (hnn : nullish ev = false)
    (h : strOrFalsy (dot ev "text") = true) :
    ∃ st', stepEv source rmids ruts st ev = .ok st' := by
  unfold stepEv
  rw [jget_ok hnn]
  simp only [exceptBind_ok]
  apply exceptIte_ok
  · exact ⟨_, rfl⟩
  · apply exceptIte_ok
    · exact ⟨_, rfl⟩
    · apply exceptIte_ok
      · exact messageStep_ok source rmids ruts st ev h
      · exact ⟨_, rfl⟩

/-- The event loop does not throw on batches of such events. -/
theorem runEvents_ok (source : ChatSource) (rmids : List JVal)
    (ruts : List String) :
    ∀ (l : List JVal) (st : LoopSt),
      (∀ e ∈ l, nullish e = false ∧ strOrFalsy (dot e "text") = true) →
      ∃ st', runEvents source rmids ruts st l = .ok st' := by
  intro l
  induction l with
  | nil => intro st _; exact ⟨st, rfl⟩
  | cons ev rest ih =>
    intro st hall
    rcases stepEv_ok source rmids ruts st ev (hall ev (by simp)).1
      (hall ev (by simp)).2 with ⟨st2, hs⟩
    rcases ih st2 (fun e he => hall e (by simp [he])) with ⟨st', hr⟩
    exact ⟨st', by simp only [runEvents, hs, exceptBind_ok]; exact hr⟩

/-- Comparator-key extraction does not throw on non-nullish events. -/
theorem keyEnts_ok :
    ∀ (l : List (Nat × JVal)),
      (∀ p ∈ l, nullish p.2 = false) →
      ∃ ents, keyEnts l = .ok ents := by
  intro l
  induction l with
  | nil => exact fun _ => ⟨[], rfl⟩
  | cons p rest ih =>
    intro hall
    rcases ih (fun q hq => hall q (by simp [hq])) with ⟨ents, he⟩
    rcases p with ⟨i, e⟩
    have hnn : nullish e = false := hall (i, e) (by simp)
    refine ⟨⟨e, i, numOr (dot e "seq") maxSafeInteger,
      numOr (dot e "timestamp_ms") maxSafeInteger⟩ :: ents, ?_⟩
    simp only [keyEnts, jget_ok hnn, exceptBind_ok, he, exceptPure]

/-- The Stable Orderer does not throw on non-nullish events. -/
theorem sortEvents_ok (events : List JVal)
    (h : ∀ e ∈ events, nullish e = false) :
    ∃ sorted, sortEvents events = .ok sorted := by
  rcases keyEnts_ok events.enum
    (fun p hp => h p.2 (List.snd_mem_of_mem_enum hp)) with ⟨ents, he⟩
  exact ⟨_, by simp only [sortEvents, he, exceptBind_ok]; rfl⟩

/-- Key extraction only decorates: the carried events are the input events. -/
theorem keyEnts_map_e :
    ∀ (l : List (Nat × JVal)) (ents : List SortEnt),
      keyEnts l = .ok ents → ents.map SortEnt.e = l.map Prod.snd := by
  intro l
  induction l with
  | nil =>
    intro ents h
    simp only [keyEnts] at h
    rw [← (Except.ok.injEq _ _).mp h]
    rfl
  | cons p rest ih =>
    intro ents h
    rcases p with ⟨i, e⟩
    simp only [keyEnts] at h
    cases h1 : jget e "seq" with
    | error u =>
      rw [h1] at h
      simp only [exceptBind_error] at h
      exact Except.noConfusion h
    | ok sv =>
      rw [h1] at h
      simp only [exceptBind_ok] at h
      cases h2 : jget e "timestamp_ms" with
      | error u =>
        rw [h2] at h
        simp only [exceptBind_error] at h
        exact Except.noConfusion h
      | ok tv =>
        rw [h2] at h
        simp only [exceptBind_ok] at h
        cases h3 : keyEnts rest with
        | error u =>
          rw [h3] at h
          simp only [exceptBind_error] at h
          exact Except.noConfusion h
        | ok tail =>
          rw [h3] at h
          simp only [exceptBind_ok, exceptPure] at h
          rw [← (Except.ok.injEq _ _).mp h]
          simp [ih tail h3]

/-- The Stable Orderer only permutes: every output event is an input
event. -/
theorem sortEvents_mem (events sorted : List JVal)
    (h : sortEvents events = .ok sorted) : ∀ e ∈ sorted, e ∈ events := by
  intro e he
  unfold sortEvents at h
  cases hk : keyEnts events.enum with
  | error u =>
    rw [hk] at h
    simp only [exceptBind_error] at h
    exact Except.noConfusion h
  | ok ents =>
    rw [hk] at h
    simp only [exceptBind_ok, exceptPure] at h
    rw [← (Except.ok.injEq _ _).mp h] at he
    rcases List.mem_map.mp he with ⟨ent, hent, hee⟩
    rw [List.mem_insertionSort] at hent
    have hmem : e ∈ ents.map SortEnt.e := List.mem_map.mpr ⟨ent, hent, hee⟩
    rw [keyEnts_map_e events.enum ents hk] at hmem
    rw [List.enum_map_snd] at hmem
    exact hmem

/-- A transcript-fallback iteration does not throw on a non-nullish item. -/
theorem transcriptStep_ok (source : ChatSource) (msgs : List ChatMessage)
    (it : JVal) (hnn : nullish it = false) :
    ∃ msgs', transcriptStep source msgs it = .ok msgs' := by
  unfold transcriptStep
  rw [jget_ok hnn]
  simp only [exceptBind_ok]
  apply exceptIte_ok
  · exact ⟨_, rfl⟩
  · rcases extractText_total it with ⟨s, hs⟩
    simp only [exceptPure, exceptBind_ok, hs]
    exact ⟨_, rfl⟩

/-- The transcript fallback loop does not throw on non-nullish items. -/
theorem runTranscript_ok (source : ChatSource) :
    ∀ (l : List JVal) (msgs : List ChatMessage),
      (∀ t ∈ l, nullish t = false) →
      ∃ msgs', runTranscript source msgs l = .ok msgs' := by
  intro l
  induction l with
  | nil => intro msgs _; exact ⟨msgs, rfl⟩
  | cons it rest ih =>
    intro msgs hall
    rcases transcriptStep_ok source msgs it (hall it (by simp)) with ⟨m2, hs⟩
    rcases ih m2 (fun t ht => hall t (by simp [ht])) with ⟨m3, hr⟩
    exact ⟨m3, by simp only [runTranscript, hs, exceptBind_ok]; exact hr⟩

/-- A realtime-log iteration does not throw on a non-nullish record. -/
theorem rtStep_ok (msgs : List ChatMessage) (l : JVal)
    (hnn : nullish l = false) : ∃ msgs', rtStep msgs l = .ok msgs' := by
  unfold rtStep
  rw [jget_ok hnn]
  simp only [exceptBind_ok]
  apply exceptIte_ok
  · exact ⟨_, rfl⟩
  · exact ⟨_, rfl⟩

/-- The realtime-log loop does not throw on non-nullish records. -/
theorem runRt_ok :
    ∀ (rls : List JVal) (msgs : List ChatMessage),
      (∀ x ∈ rls, nullish x = false) →
      ∃ msgs', runRt msgs rls = .ok msgs' := by
  intro rls
  induction rls with
  | nil => intro msgs _; exact ⟨msgs, rfl⟩
  | cons x rest ih =>
    intro msgs hall
    rcases rtStep_ok msgs x (hall x (by simp)) with ⟨m2, hs⟩
    rcases ih m2 (fun t ht => hall t (by simp [ht])) with ⟨m3, hr⟩
    exact ⟨m3, by simp only [runRt, hs, exceptBind_ok]; exact hr⟩

/-- C3 (amended): `extractText` never throws on any input, and
`buildChatMessages` never throws provided every record in the three arrays
is non-null/undefined and every event's `text` field, when truthy, is a
string — in particular records with missing fields never raise.  (A truthy
non-string `text` does raise: see the counterexample.) -/
theorem claim3_no_throw_on_records :
    (∀ item : JVal, ∃ s, extractText item = .ok s) ∧
    (∀ (evs ts rls : List JVal) (src : Option ChatSource),
      (∀ e ∈ evs, nullish e = false ∧ strOrFalsy (dot e "text") = true) →
      (∀ t ∈ ts, nullish t = false) →
      (∀ x ∈ rls, nullish x = false) →
      ∃ ms, buildChatMessages evs ts rls src = .ok ms) := by
  refine ⟨extractText_total, ?_⟩
  intro evs ts rls src hev hts hrls
  unfold buildChatMessages
  by_cases hlen : evs.length > 0
  · rw [if_pos hlen]
    rcases sortEvents_ok evs (fun e he => (hev e he).1) with ⟨sorted, hso⟩
    rw [hso]
    simp only [exceptBind_ok]
    have hsorted : ∀ e ∈ sorted, nullish e = false ∧ strOrFalsy (dot e "text") = true := by
      intro e he
      exact hev e (sortEvents_mem evs sorted hso e he)
    rcases runEvents_ok (src.getD .sdk) (realMessageIds sorted)
      (realUserTexts sorted) sorted initSt hsorted with ⟨st, hru⟩
    rw [hru]
    simp only [exceptBind_ok, exceptPure]
    exact runRt_ok rls _ hrls
  · rw [if_neg hlen]
    rcases runTranscript_ok (src.getD .sdk) ts [] hts with ⟨base, hrt⟩
    rw [hrt]
    simp only [exceptBind_ok]
    exact runRt_ok rls base hrls

/-- Witness for C3's theorem: a null item for `extractText`, and the
confirmed-user-message batch for `buildChatMessages`. -/
theorem claim3_witness :
    (∃ s, extractText JVal.vnull = .ok s) ∧
    (∃ ms, buildChatMessages [evConfHiA] [] [] none = .ok ms) :=
  ⟨claim3_no_throw_on_records.1 .vnull,
   claim3_no_throw_on_records.2 [evConfHiA] [] [] none (by decide) (by decide)
     (by decide)⟩


/- C2 order theory: keys, the pointwise order they induce, and the
   idempotence and stability of the Stable Orderer. -/

def keyPair (e : JVal) : Int × Int :=
  (numOr (dot e "seq") maxSafeInteger, numOr (dot e "timestamp_ms") maxSafeInteger)

def entOf (p : Nat × JVal) : SortEnt :=
  ⟨p.2, p.1, numOr (dot p.2 "seq") maxSafeInteger,
    numOr (dot p.2 "timestamp_ms") maxSafeInteger⟩

def entWF (x : SortEnt) : Prop :=
  x.ks = (keyPair x.e).1 ∧ x.kt = (keyPair x.e).2

def pairLtP (p q : Int × Int) : Prop := p.1 < q.1 ∨ (p.1 = q.1 ∧ p.2 < q.2)

def keyLe (e f : JVal) : Prop := pairLtP (keyPair e) (keyPair f) ∨ keyPair e = keyPair f

def keyLtP (e f : JVal) : Prop := pairLtP (keyPair e) (keyPair f)

theorem entLe_total (a b : SortEnt) : entLe a b = true ∨ entLe b a = true := by
  unfold entLe
  by_cases h1 : a.ks = b.ks
  · by_cases h2 : a.kt = b.kt
    · simp [h1, h2] <;> omega
    · simp [h1, h2, Ne.symm h2] <;> omega
  · simp [h1, Ne.symm h1] <;> omega

theorem entLe_trans (a b c : SortEnt) (h1 : entLe a b = true)
    (h2 : entLe b c = true) : entLe a c = true := by
  unfold entLe at h1 h2 ⊢
  by_cases hab : a.ks = b.ks <;> by_cases hbc : b.ks = c.ks <;>
    by_cases hac : a.ks = c.ks <;>
    by_cases tab : a.kt = b.kt <;> by_cases tbc : b.kt = c.kt <;>
    by_cases tac : a.kt = c.kt <;>
    simp_all <;> omega

theorem keyEnts_nullish :
    ∀ (l : List (Nat × JVal)) (ents : List SortEnt),
      keyEnts l = .ok ents → ∀ p ∈ l, nullish p.2 = false := by
  intro l
  induction l with
  | nil => intro ents _ p hp; cases hp
  | cons q rest ih =>
    intro ents h p hp
    rcases q with ⟨i, e⟩
    simp only [keyEnts] at h
    cases h1 : jget e "seq" with
    | error u =>
      rw [h1] at h
      simp only [exceptBind_error] at h
      exact Except.noConfusion h
    | ok sv =>
      rw [h1] at h
      simp only [exceptBind_ok] at h
      cases h2 : jget e "timestamp_ms" with
      | error u =>
        rw [h2] at h
        simp only [exceptBind_error] at h
        exact Except.noConfusion h
      | ok tv =>
        rw [h2] at h
        simp only [exceptBind_ok] at h
        cases h3 : keyEnts rest with
        | error u =>
          rw [h3] at h
          simp only [exceptBind_error] at h
          exact Except.noConfusion h
        | ok tail =>
          rcases List.mem_cons.mp hp with hq | hq
          · rw [hq]
            unfold jget at h1
            by_cases hn : nullish e = true
            · rw [if_pos hn] at h1; exact Except.noConfusion h1
            · simpa using hn
          · exact ih tail h3 p hq

theorem keyEnts_eq_map :
    ∀ (l : List (Nat × JVal)),
      (∀ p ∈ l, nullish p.2 = false) →
      keyEnts l = .ok (l.map entOf) := by
  intro l
  induction l with
  | nil => intro _; rfl
  | cons q rest ih =>
    intro hall
    rcases q with ⟨i, e⟩
    have hnn : nullish e = false := hall (i, e) (by simp)
    simp only [keyEnts, jget_ok hnn, exceptBind_ok,
      ih (fun p hp => hall p (by simp [hp])), exceptPure]
    rfl

theorem keyEnts_ok_shape (l : List (Nat × JVal)) (ents : List SortEnt)
    (h : keyEnts l = .ok ents) : ents = l.map entOf := by
  have hn := keyEnts_nullish l ents h
  rw [keyEnts_eq_map l hn] at h
  exact ((Except.ok.injEq _ _).mp h).symm

theorem entWF_of_mem_map (l : List (Nat × JVal)) (x : SortEnt)
    (hx : x ∈ l.map entOf) : entWF x := by
  rcases List.mem_map.mp hx with ⟨p, _, hp⟩
  rw [← hp]
  exact ⟨rfl, rfl⟩

theorem entLe_keyLe {a b : SortEnt} (ha : entWF a) (hb : entWF b)
    (h : entLe a b = true) : keyLe a.e b.e := by
  unfold entLe at h
  unfold keyLe pairLtP
  rcases ha with ⟨ha1, ha2⟩
  rcases hb with ⟨hb1, hb2⟩
  by_cases h1 : a.ks = b.ks <;> by_cases h2 : a.kt = b.kt <;>
    simp_all <;> first
    | omega
    | (left; omega)
    | (right; constructor <;> omega)
    | (rw [Prod.ext_iff]; constructor <;> omega)

theorem mapE_entOf (l : List (Nat × JVal)) :
    (l.map entOf).map SortEnt.e = l.map Prod.snd := by
  induction l with
  | nil => rfl
  | cons p rest ih => simp [entOf, ih]

theorem sortEvents_shape (events sorted : List JVal)
    (h : sortEvents events = .ok sorted) :
    sorted = ((events.enum.map entOf).insertionSort
      (fun a b => entLe a b)).map SortEnt.e := by
  unfold sortEvents at h
  cases hk : keyEnts events.enum with
  | error u =>
    rw [hk] at h
    simp only [exceptBind_error] at h
    exact Except.noConfusion h
  | ok ents =>
    rw [hk] at h
    simp only [exceptBind_ok, exceptPure] at h
    rw [← (Except.ok.injEq _ _).mp h, keyEnts_ok_shape events.enum ents hk]

theorem sortEvents_perm (events sorted : List JVal)
    (h : sortEvents events = .ok sorted) : sorted.Perm events := by
  rw [sortEvents_shape events sorted h]
  have hperm := List.perm_insertionSort (fun a b : SortEnt => entLe a b)
    (events.enum.map entOf)
  have := hperm.map SortEnt.e
  rw [mapE_entOf, List.enum_map_snd] at this
  exact this

theorem sortEvents_pairwise_keyLe (events sorted : List JVal)
    (h : sortEvents events = .ok sorted) : sorted.Pairwise keyLe := by
  rw [sortEvents_shape events sorted h]
  haveI : IsTotal SortEnt (fun a b => entLe a b = true) := ⟨entLe_total⟩
  haveI : IsTrans SortEnt (fun a b => entLe a b = true) := ⟨entLe_trans⟩
  have hsorted := List.sorted_insertionSort (fun a b : SortEnt => entLe a b)
    (events.enum.map entOf)
  rw [List.pairwise_map]
  refine List.Pairwise.imp_of_mem ?_ hsorted
  intro a b hma hmb hab
  have hwa : entWF a := entWF_of_mem_map events.enum a
    (by simpa using (List.mem_insertionSort _).mp hma)
  have hwb : entWF b := entWF_of_mem_map events.enum b
    (by simpa using (List.mem_insertionSort _).mp hmb)
  exact entLe_keyLe hwa hwb hab

theorem pairwise_enumFrom {α : Type} {R : α → α → Prop} :
    ∀ (n : Nat) (l : List α), l.Pairwise R →
      (l.enumFrom n).Pairwise (fun p q => p.1 < q.1 ∧ R p.2 q.2) := by
  intro n l
  induction l generalizing n with
  | nil => intro _; simp
  | cons a rest ih =>
    intro hp
    rw [List.enumFrom_cons]
    refine List.Pairwise.cons ?_ (ih (n + 1) hp.tail)
    rintro ⟨i, x⟩ hq
    have hmem := List.mem_enumFrom hq
    refine ⟨Nat.lt_of_lt_of_le (Nat.lt_succ_self n) hmem.1, ?_⟩
    have hx : x ∈ rest := by
      rw [hmem.2.2]
      exact List.getElem_mem _
    exact (List.pairwise_cons.mp hp).1 x hx

theorem keyLe_entLe (p q : Nat × JVal) (hi : p.1 < q.1) (hk : keyLe p.2 q.2) :
    entLe (entOf p) (entOf q) = true := by
  simp only [keyLe, pairLtP, keyPair, Prod.ext_iff] at hk
  simp only [entLe, entOf]
  split_ifs <;> simp_all <;> omega

theorem pairwise_keyLe_sorted (r : List JVal) (h : r.Pairwise keyLe) :
    List.Sorted (fun a b => entLe a b) (r.enum.map entOf) := by
  rw [List.Sorted, List.pairwise_map]
  have h2 := pairwise_enumFrom 0 r h
  have he : r.enum = r.enumFrom 0 := rfl
  rw [he]
  exact h2.imp (fun hpq => keyLe_entLe _ _ hpq.1 hpq.2)

theorem sortEvents_nullish (events sorted : List JVal)
    (h : sortEvents events = .ok sorted) : ∀ e ∈ events, nullish e = false := by
  unfold sortEvents at h
  cases hk : keyEnts events.enum with
  | error u =>
    rw [hk] at h
    simp only [exceptBind_error] at h
    exact Except.noConfusion h
  | ok ents =>
    intro e he
    have hall := keyEnts_nullish events.enum ents hk
    obtain ⟨i, hi⟩ := List.mem_iff_get.mp he
    have : (i.val, e) ∈ events.enum := by
      rw [← hi]
      exact List.mem_enum_iff_get?.mpr (by simp [List.get?_eq_get])
    exact hall (i.val, e) this

theorem sortEvents_of_sorted (r : List JVal)
    (hnn : ∀ e ∈ r, nullish e = false)
    (hpw : r.Pairwise keyLe) : sortEvents r = .ok r := by
  have hnn2 : ∀ p ∈ r.enum, nullish p.2 = false := by
    intro p hp
    exact hnn p.2 (List.snd_mem_of_mem_enum hp)
  unfold sortEvents
  rw [keyEnts_eq_map r.enum hnn2]
  simp only [exceptBind_ok]
  rw [List.Sorted.insertionSort_eq (pairwise_keyLe_sorted r hpw)]
  rw [mapE_entOf, List.enum_map_snd]

theorem sortEvents_idem (l r : List JVal) (h : sortEvents l = .ok r) :
    sortEvents r = .ok r := by
  have hperm := sortEvents_perm l r h
  have hnn : ∀ e ∈ r, nullish e = false := by
    intro e he
    exact sortEvents_nullish l r h e (hperm.mem_iff.mp he)
  exact sortEvents_of_sorted r hnn (sortEvents_pairwise_keyLe l r h)

theorem pairLtP_asymm (p q : Int × Int) (h1 : pairLtP p q) (h2 : pairLtP q p) :
    False := by
  unfold pairLtP at h1 h2
  omega

theorem sortEvents_pairwise_keyLtP (l r : List JVal)
    (hnd : (r.map keyPair).Nodup) (h : sortEvents l = .ok r) :
    r.Pairwise keyLtP := by
  have hne : r.Pairwise (fun a b => keyPair a ≠ keyPair b) :=
    List.pairwise_map.mp hnd
  have hand := (sortEvents_pairwise_keyLe l r h).and hne
  exact hand.imp (fun hab => hab.1.resolve_right hab.2)

theorem sortEvents_stable (l₁ l₂ r₁ r₂ : List JVal)
    (hp : l₁.Perm l₂) (hnd : (l₁.map keyPair).Nodup)
    (h₁ : sortEvents l₁ = .ok r₁) (h₂ : sortEvents l₂ = .ok r₂) : r₁ = r₂ := by
  have perm₁ := sortEvents_perm l₁ r₁ h₁
  have perm₂ := sortEvents_perm l₂ r₂ h₂
  have hperm : r₁.Perm r₂ := perm₁.trans (hp.trans perm₂.symm)
  have hnd₁ : (r₁.map keyPair).Nodup := (perm₁.map keyPair).symm.nodup hnd
  have hnd₂ : (r₂.map keyPair).Nodup := (hperm.map keyPair).nodup hnd₁
  haveI : IsAntisymm JVal keyLtP :=
    ⟨fun a b hab hba => (pairLtP_asymm _ _ hab hba).elim⟩
  exact List.eq_of_perm_of_sorted hperm
    (sortEvents_pairwise_keyLtP l₁ r₁ hnd₁ h₁)
    (sortEvents_pairwise_keyLtP l₂ r₂ hnd₂ h₂)

/-- C2: re-ordering an already-ordered batch is a no-op, and on batches whose
(seq, timestamp) key pairs are pairwise distinct the orderer output does not
depend on the arrival order of the events. -/
theorem claim2_orderer_idempotent_and_stable :
    (∀ (l r : List JVal), sortEvents l = .ok r → sortEvents r = .ok r) ∧
    (∀ (l₁ l₂ r₁ r₂ : List JVal), l₁.Perm l₂ → (l₁.map keyPair).Nodup →
      sortEvents l₁ = .ok r₁ → sortEvents l₂ = .ok r₂ → r₁ = r₂) :=
  ⟨sortEvents_idem, sortEvents_stable⟩

/-- Witness for C2 at the two tool events of the repository unit test (seq 1 and seq 2):
sorting the sorted batch is a no-op, and sorting the swapped batch gives the
same result. -/
theorem claim2_witness :
    sortEvents [evToolCall, evToolResult] = .ok [evToolCall, evToolResult] ∧
    ([evToolCall, evToolResult] : List JVal) = [evToolCall, evToolResult] :=
  ⟨claim2_orderer_idempotent_and_stable.1 [evToolResult, evToolCall]
      [evToolCall, evToolResult] (by rfl),
   claim2_orderer_idempotent_and_stable.2 [evToolResult, evToolCall]
      [evToolCall, evToolResult] [evToolCall, evToolResult]
      [evToolCall, evToolResult]
      (List.Perm.swap evToolCall evToolResult [])
      (by decide) (by rfl) (by rfl)⟩
